import Mathlib

/-!
Verification of the call-tracing subsystem (frame stack, depth guard, call
tracer, result container) and of the zkstack CLI entry point.

The call-tracer implementation itself is exercised by
`core/lib/multivm/src/versions/vm_latest/tests/call_tracer.rs`; the component
definitions below are modelled from the specification of the subsystem
(frame stack, depth guard, tracer hook contract, result container), and the
CLI definitions are translated from `zkstack_cli/crates/zkstack/src/main.rs`.
-/

namespace VmTrace

/-- Addresses are abstract identifiers. -/
abbrev Address := Nat

/-- Raw byte payloads. -/
abbrev Bytes := List Nat

/-- Modelled from the spec: the calling convention used to enter the callee
(`kind` field of a Call Record). -/
inductive CallType where
  | call
  | staticCall
  | delegateCall
  | create
  deriving DecidableEq, Repr

/-- Modelled from the spec: the failure reason recorded on a Call Record,
either the depth-exceeded condition produced by the Depth Guard or an
ordinary call-level failure (revert / out of resources). -/
inductive TraceError where
  | depthExceeded
  | revert (msg : Bytes)
  deriving DecidableEq, Repr

/-- Modelled from the spec: the payload of an `on_enter` hook event
(`on_enter(kind, from, to, value, input, gas_limit)`). `from`/`to` are named
`caller`/`callee` here. -/
structure EnterData where
  kind : CallType
  caller : Address
  callee : Address
  value : Nat
  input : Bytes
  gas_limit : Nat
  deriving DecidableEq, Repr

/-- Modelled from the spec: the payload of an `on_exit` hook event
(`on_exit(gas_used, output_or_error)`): `output` is absent when the call
reverted before producing data. -/
structure ExitData where
  output : Option Bytes
  error : Option TraceError
  gas_used : Nat
  deriving DecidableEq, Repr

/-- Modelled from the spec: a finalized Call Record — one call leg together
with its ordered subcalls (named `calls`, as in the test's
`call_tracer_result[0].calls`). Immutable once closed. -/
inductive Call where
  | mk (entry : EnterData) (output : Option Bytes) (gas_used : Nat)
       (error : Option TraceError) (calls : List Call)

/-- The entry data of a Call Record. -/
def Call.entry : Call → EnterData
  | .mk e _ _ _ _ => e

/-- The output payload of a Call Record. -/
def Call.output : Call → Option Bytes
  | .mk _ o _ _ _ => o

/-- The gas used by a Call Record's own leg. -/
def Call.gas_used : Call → Nat
  | .mk _ _ g _ _ => g

/-- The recorded failure reason, absent on success. -/
def Call.error : Call → Option TraceError
  | .mk _ _ _ err _ => err

/-- The ordered subcalls of a Call Record. -/
def Call.calls : Call → List Call
  | .mk _ _ _ _ cs => cs

/-- Modelled from the spec: an in-progress frame of the Frame Stack — a
not-yet-closed Call Record accumulating children, with the Depth Guard's
pending depth-exceeded mark. -/
structure Frame where
  entry : EnterData
  calls : List Call
  depthFail : Bool

/-- Modelled from the spec: contract violations (driver/observer protocol
violations) that must be surfaced loudly rather than produce a misleading
trace. -/
inductive Violation where
  | exitOnEmptyStack
  | unclosedFrames
  | doubleFinalize
  deriving DecidableEq, Repr

/-- Modelled from the spec: the Call Tracer's mutable state — the Frame
Stack (head = innermost open frame), the finished top-level records in
submission order, the Depth Guard's count of suppressed open attempts, and
a recorded contract violation, if any. -/
structure TracerState where
  stack : List Frame
  result : List Call
  suppressed : Nat
  violation : Option Violation

/-- Modelled from the spec: the tracer's initial state at construction. -/
def TracerState.init : TracerState :=
  { stack := [], result := [], suppressed := 0, violation := none }

/-- Modelled from the spec: closing a frame attaches the finishing data; a
Depth-Guard mark overrides the call's own error with the depth-exceeded
error, and the frame's accumulated children become the record's `calls`. -/
def closeFrame (f : Frame) (x : ExitData) : Call :=
  .mk f.entry x.output x.gas_used
    (if f.depthFail then some .depthExceeded else x.error) f.calls

/-- Modelled from the spec: a closed record is appended as the last child of
its parent frame, or as the next top-level record when no frame remains. -/
def pushRecord (st : TracerState) (c : Call) : TracerState :=
  match st.stack with
  | [] => { st with result := st.result ++ [c] }
  | f :: fs => { st with stack := { f with calls := f.calls ++ [c] } :: fs }

/-- Modelled from the spec: the Depth Guard marks the current top frame (the
one that attempted the disallowed call) with a depth-exceeded error to be
attached on its next exit. -/
def markDepthFail : List Frame → List Frame
  | [] => []
  | f :: fs => { f with depthFail := true } :: fs

/-- Modelled from the spec: Frame Stack `enter` — pushes a new in-progress
frame (depth = previous stack length); once the configured maximum depth `D`
is reached (the new frame would sit at depth > `D`), it does not push:
the Depth Guard marks the current top frame and counts the suppressed
attempt so its matching exit is swallowed. -/
def FrameStack.enter (D : Nat) (st : TracerState) (e : EnterData) : TracerState :=
  if st.stack.length ≤ D then
    { st with stack := { entry := e, calls := [], depthFail := false } :: st.stack }
  else
    { st with stack := markDepthFail st.stack, suppressed := st.suppressed + 1 }

/-- Modelled from the spec: Frame Stack `exit` — pops the current top frame,
attaches the finishing data, and appends the now-immutable record to its
parent (or to the top-level sequence). Calling `exit` when the stack is
empty is a programming-contract violation and is rejected loudly. -/
def FrameStack.exit (st : TracerState) (x : ExitData) : Except Violation TracerState :=
  match st.stack with
  | [] => .error .exitOnEmptyStack
  | f :: fs => .ok (pushRecord { st with stack := fs } (closeFrame f x))

/-- Modelled from the spec: the Call Tracer's `on_enter` hook delegates to
Frame Stack `enter`; after a contract violation the pass is aborted. -/
def CallTracer.on_enter (D : Nat) (st : TracerState) (e : EnterData) : TracerState :=
  if st.violation.isSome then st else FrameStack.enter D st e

/-- Modelled from the spec: the Call Tracer's `on_exit` hook — the exit
matching a suppressed over-deep attempt is swallowed by the Depth Guard;
otherwise it delegates to Frame Stack `exit`, recording a contract
violation loudly if the stack is empty. -/
def CallTracer.on_exit (st : TracerState) (x : ExitData) : TracerState :=
  if st.violation.isSome then st
  else if st.suppressed ≠ 0 then { st with suppressed := st.suppressed - 1 }
  else
    match FrameStack.exit st x with
    | .ok st' => st'
    | .error v => { st with violation := some v }

/-- Modelled from the spec: the Result Container — a write-once,
externally-readable slot (the test's `once_cell::sync::OnceCell`). -/
structure OnceCell (α : Type) where
  value : Option α
  deriving DecidableEq

/-- Modelled from the spec: a fresh, unset Result Container. -/
def OnceCell.new {α : Type} : OnceCell α := ⟨none⟩

/-- Modelled from the spec: reading the Result Container yields the
finalized value, or `none` when the pass has not yet completed. -/
def OnceCell.get {α : Type} (c : OnceCell α) : Option α := c.value

/-- Modelled from the spec: write-once `set` — succeeds (returning `true`)
only on an unset cell; a second attempt fails and leaves the stored value
unchanged. -/
def OnceCell.set {α : Type} (c : OnceCell α) (v : α) : OnceCell α × Bool :=
  match c.value with
  | none => (⟨some v⟩, true)
  | some _ => (c, false)

/-- Modelled from the spec: the tree of calls a transaction attempts, as the
interpreter would execute it with no depth limit — each node is one call leg
with its entry data, its finishing data, and the subcalls it attempts. -/
inductive CallTree where
  | node (entry : EnterData) (outcome : ExitData) (subs : List CallTree)

/-- The entry data of an attempted call. -/
def CallTree.entry : CallTree → EnterData
  | .node e _ _ => e

/-- The finishing data of an attempted call. -/
def CallTree.outcome : CallTree → ExitData
  | .node _ x _ => x

/-- The subcalls an attempted call makes. -/
def CallTree.subs : CallTree → List CallTree
  | .node _ _ s => s

/-- Modelled from the spec: a hook event of the two-event Tracer Hook
Contract, delivered strictly in interpreter execution order. -/
inductive Event where
  | enter (e : EnterData)
  | leave (x : ExitData)

/-- Modelled from the spec: the exit payload of an attempted call that the
interpreter's own depth limit refuses to execute — it fails immediately
without producing output. -/
def depthFailOutcome : ExitData :=
  { output := none, error := some .depthExceeded, gas_used := 0 }

mutual

/-- Modelled from the spec: the well-nested event stream the interpreter
delivers for one attempted call at depth `d`. Within the interpreter's own
call-depth limit `D` the call runs in full (its subcalls are attempted at
depth `d + 1`); an attempted call beyond the limit fails immediately — its
event pair is still delivered, but its body (and hence its own subcalls) is
suppressed before entering the hook contract. -/
def emit (D d : Nat) : CallTree → List Event
  | .node e x subs =>
    if d ≤ D then .enter e :: (emitList D (d + 1) subs ++ [.leave x])
    else [.enter e, .leave depthFailOutcome]

/-- Modelled from the spec: the event stream of a sequence of sibling calls,
in call order. -/
def emitList (D d : Nat) : List CallTree → List Event
  | [] => []
  | t :: ts => emit D d t ++ emitList D d ts

end

/-- Modelled from the spec: the Tracer Hook Contract — any observer
implements `on_enter` and `on_exit` over its own state; several independent
implementations may be attached to the same pass. -/
structure Tracer (σ : Type) where
  on_enter : σ → EnterData → σ
  on_exit : σ → ExitData → σ

/-- Delivering one hook event to an observer. -/
def Tracer.step {σ : Type} (tr : Tracer σ) (s : σ) : Event → σ
  | .enter e => tr.on_enter s e
  | .leave x => tr.on_exit s x

/-- Delivering a stream of hook events to an observer, in order. -/
def runEvents {σ : Type} (tr : Tracer σ) (s : σ) (evs : List Event) : σ :=
  evs.foldl tr.step s

/-- The Call Tracer packaged as a Hook Contract implementation. -/
def callTracer (D : Nat) : Tracer TracerState :=
  { on_enter := CallTracer.on_enter D, on_exit := CallTracer.on_exit }

/-- An observer that records nothing (no tracer attached). -/
def nilTracer : Tracer Unit :=
  { on_enter := fun s _ => s, on_exit := fun s _ => s }

/-- Modelled from the spec: a transaction submitted to the Execution Driver:
the call tree it attempts, and the interpreter's own success/failure verdict
for it (decided independently of any tracer). -/
structure Transaction where
  tree : CallTree
  failed : Bool

/-- Modelled from the spec: the Execution Driver's verdict for a pass, with
its boolean failed/succeeded flag (the test's `res.result.is_failed()`). -/
structure ExecutionVerdict where
  failed : Bool
  deriving DecidableEq, Repr

/-- `is_failed` accessor, as called in the test. -/
def ExecutionVerdict.is_failed (r : ExecutionVerdict) : Bool := r.failed

/-- The hook events one transaction delivers (its root call is top-level,
at depth 0). -/
def txEvents (D : Nat) (tx : Transaction) : List Event := emit D 0 tx.tree

/-- The hook events of a whole inspection pass, in submission order. -/
def passEvents (D : Nat) : List Transaction → List Event
  | [] => []
  | tx :: txs => txEvents D tx ++ passEvents D txs

/-- Modelled from the spec: the inspection operation with an arbitrary
observer attached — the interpreter runs the submitted transactions,
delivering every hook event to the observer, and returns its own verdict,
which does not depend on the observer. -/
def inspectWith {σ : Type} (tr : Tracer σ) (s : σ) (D : Nat)
    (txs : List Transaction) : ExecutionVerdict × σ :=
  ({ failed := txs.any (·.failed) }, runEvents tr s (passEvents D txs))

/-- Modelled from the spec: pass-completion finalization — the Call Tracer
takes the Frame Stack's top-level sequence and writes it into the Result
Container; a recorded violation, unclosed frames, or a second write are
contract violations and leave the container unwritten. -/
def finalize (st : TracerState) (cell : OnceCell (List Call)) :
    OnceCell (List Call) × Option Violation :=
  if st.violation.isSome then (cell, st.violation)
  else if st.stack.isEmpty then
    match cell.set st.result with
    | (cell', true) => (cell', none)
    | (cell', false) => (cell', some .doubleFinalize)
  else (cell, some .unclosedFrames)

/-- Modelled from the spec: `CallTracer::new` — construction yields the
tracer's initial state and the handle to its fresh Result Container. -/
def CallTracer.new : TracerState × OnceCell (List Call) :=
  (TracerState.init, OnceCell.new)

/-- Modelled from the spec: one full inspection pass with the Call Tracer
attached (the test's `vm.inspect(...)` + `result.get()`): run every
transaction, finalize into the Result Container, and return the Execution
Driver's verdict together with the container. -/
def inspect (D : Nat) (txs : List Transaction) :
    ExecutionVerdict × OnceCell (List Call) :=
  let start := CallTracer.new
  let run := inspectWith (callTracer D) start.1 D txs
  (run.1, (finalize run.2 start.2).1)

mutual

/-- Modelled from the spec: the Call Record the tracer publishes for an
attempted call at depth `d` under depth limit `D`. Below the limit the call
is recorded in full with its subcalls at depth `d + 1`; at the boundary the
record keeps no subcalls and, when further recursion was attempted, carries
the depth-exceeded error. -/
def recordOf (D d : Nat) : CallTree → Call
  | .node e x subs =>
    if d < D then
      .mk e x.output x.gas_used x.error (recordListOf D (d + 1) subs)
    else
      .mk e x.output x.gas_used
        (if subs.isEmpty then x.error else some .depthExceeded) []

/-- Modelled from the spec: the Call Records of sibling attempted calls, in
call order. -/
def recordListOf (D d : Nat) : List CallTree → List Call
  | [] => []
  | t :: ts => recordOf D d t :: recordListOf D d ts

end

/-- The ordered top-level Call Records an inspection pass publishes: one per
submitted transaction, in submission order. -/
def recordsOf (D : Nat) (txs : List Transaction) : List Call :=
  txs.map (fun tx => recordOf D 0 tx.tree)

/-- `OccursAt r d c`: the Call Record `c` appears at depth `d` (distance
from the top-level record) inside the published record `r`. -/
inductive OccursAt : Call → Nat → Call → Prop where
  | here (r : Call) : OccursAt r 0 r
  | child {r s c : Call} {d : Nat} :
      s ∈ r.calls → OccursAt s d c → OccursAt r (d + 1) c

/-- `TOccursAt t d u`: the attempted call `u` appears at depth `d` inside
the attempted call tree `t`. -/
inductive TOccursAt : CallTree → Nat → CallTree → Prop where
  | here (t : CallTree) : TOccursAt t 0 t
  | child {t s u : CallTree} {d : Nat} :
      s ∈ t.subs → TOccursAt s d u → TOccursAt t (d + 1) u

/-- A linear self-recursive call chain attempting `n + 1` nested calls. -/
def chainTree (e : EnterData) (x : ExitData) : Nat → CallTree
  | 0 => .node e x []
  | n + 1 => .node e x [chainTree e x n]

/-- Modelled from the spec: Scenario C — a transaction deliberately designed
to recurse to depth `n`, far beyond the configured maximum depth; the
interpreter's own verdict for it reports failure. -/
def deepRecursionTx (e : EnterData) (x : ExitData) (n : Nat) : Transaction :=
  { tree := chainTree e x n, failed := true }

/-- Modelled from the spec: Scenario B — the counter contract's increment
entry point performs one external call; its top-level call carries more than
ten subcalls of supporting-call machinery, and the interpreter's verdict is
non-failed. -/
def counterTx (e sub : EnterData) (x : ExitData) : Transaction :=
  { tree := .node e x (List.replicate 12 (.node sub x [])), failed := false }

/-- The record chain a truncated deep recursion publishes: `k` more levels
until the depth boundary, whose record carries the depth-exceeded error and
no subcalls. -/
def truncChain (e : EnterData) (x : ExitData) : Nat → Call
  | 0 => .mk e x.output x.gas_used (some .depthExceeded) []
  | k + 1 => .mk e x.output x.gas_used x.error [truncChain e x k]

/-- A sample entry payload for concrete runs. -/
def sampleEnter : EnterData :=
  { kind := .call, caller := 1, callee := 2, value := 0, input := [7], gas_limit := 100 }

/-- A sample exit payload for concrete runs. -/
def sampleLeave : ExitData :=
  { output := some [1], error := none, gas_used := 5 }

/-- A sample transaction whose root call makes one subcall. -/
def sampleTx : Transaction :=
  { tree := .node sampleEnter sampleLeave [.node sampleEnter sampleLeave []],
    failed := false }

end VmTrace

namespace ZkStackCli

/-- Errors surfaced by subcommands and by global-config initialization
(`anyhow::Error` in the source), kept abstract as messages. -/
abbrev CliError := String

/-- The ecosystem configuration file, exposing its list of chains
(`EcosystemConfig::list_of_chains` in the source). -/
structure EcosystemConfig where
  chains : List String

/-- `list_of_chains`, as called by `init_global_config_inner`. -/
def EcosystemConfig.list_of_chains (c : EcosystemConfig) : List String := c.chains

/-- The global CLI arguments of `ZkStackGlobalArgs` in `main.rs`:
`--verbose`, `--chain`, `--ignore-prerequisites`. -/
structure ZkStackGlobalArgs where
  verbose : Bool
  chain : Option String
  ignore_prerequisites : Bool

/-- The `GlobalConfig` stored by `init_global_config` in `main.rs`. -/
structure GlobalConfig where
  verbose : Bool
  chain_name : Option String
  ignore_prerequisites : Bool
  deriving DecidableEq

/-- `init_global_config_inner` from `main.rs`: when a `--chain` name is
given and the ecosystem config file loads (`if let Ok(config) = ...`), the
name must be one of the config's chains or the function bails with an
error; when the config cannot be loaded (or no chain is given) the check is
skipped and the global config is stored with the chain name unchanged. The
loaded-or-not ecosystem config is passed explicitly; the stored
`GlobalConfig` is returned. -/
def init_global_config_inner (ecosystem : Except CliError EcosystemConfig)
    (args : ZkStackGlobalArgs) : Except CliError GlobalConfig :=
  match args.chain, ecosystem with
  | some name, .ok config =>
    if ¬ (config.list_of_chains.contains name) then
      .error ("Chain with name " ++ name ++ " doesnt exist, please choose one of the configured chains")
    else
      .ok { verbose := args.verbose, chain_name := args.chain,
            ignore_prerequisites := args.ignore_prerequisites }
  | _, _ =>
    .ok { verbose := args.verbose, chain_name := args.chain,
          ignore_prerequisites := args.ignore_prerequisites }

/-- The observable outcome of `run_subcommand`: whether the selected
subcommand's handler was reached, and the overall result. -/
structure RunOutcome where
  subcommand_ran : Bool
  result : Except CliError Unit

/-- `run_subcommand` from `main.rs`, with the subcommand dispatch abstracted
as an opaque result: `init_global_config_inner(...)?` runs first, so an
error there returns before any subcommand handler is reached. -/
def run_subcommand (ecosystem : Except CliError EcosystemConfig)
    (args : ZkStackGlobalArgs) (dispatch : Except CliError Unit) : RunOutcome :=
  match init_global_config_inner ecosystem args with
  | .error e => { subcommand_ran := false, result := .error e }
  | .ok _ => { subcommand_ran := true, result := dispatch }

/-- The externally observable effect of `main` in `main.rs`: what was
logged via `log_error`, and the process exit status. -/
structure MainOutcome where
  logged : Option CliError
  exit_code : Nat
  deriving DecidableEq

/-- `main` from `main.rs`: on `Err(error)` it calls `log_error(error)` and
`std::process::exit(1)`; on `Ok(_)` it falls through and returns `Ok(())`
(exit status 0). The `run_subcommand` result is passed in explicitly. -/
def mainOutcome (subcommandResult : Except CliError Unit) : MainOutcome :=
  match subcommandResult with
  | .ok _ => { logged := none, exit_code := 0 }
  | .error e => { logged := some e, exit_code := 1 }

end ZkStackCli

namespace VmTrace

theorem runEvents_nil {σ : Type} (tr : Tracer σ) (s : σ) : runEvents tr s [] = s := rfl

theorem runEvents_cons {σ : Type} (tr : Tracer σ) (s : σ) (e : Event) (evs : List Event) :
    runEvents tr s (e :: evs) = runEvents tr (tr.step s e) evs := rfl

theorem runEvents_append {σ : Type} (tr : Tracer σ) (s : σ) (a b : List Event) :
    runEvents tr s (a ++ b) = runEvents tr (runEvents tr s a) b := by
  simp [runEvents, List.foldl_append]

theorem markDepthFail_length (l : List Frame) : (markDepthFail l).length = l.length := by
  cases l <;> simp [markDepthFail]

theorem markDepthFail_idem (l : List Frame) :
    markDepthFail (markDepthFail l) = markDepthFail l := by
  cases l <;> simp [markDepthFail]

theorem pushRecord_stack_cons (st : TracerState) (f : Frame) (fs : List Frame)
    (hst : st.stack = f :: fs) (c : Call) :
    pushRecord st c = { st with stack := { f with calls := f.calls ++ [c] } :: fs } := by
  simp [pushRecord, hst]

theorem pushRecord_foldl (cs : List Call) :
    ∀ (st : TracerState) (f : Frame) (fs : List Frame), st.stack = f :: fs →
      List.foldl pushRecord st cs =
        { st with stack := { f with calls := f.calls ++ cs } :: fs } := by
  induction cs with
  | nil =>
    intro st f fs hst
    simp [← hst]
  | cons c cs ih =>
    intro st f fs hst
    rw [List.foldl_cons, pushRecord_stack_cons st f fs hst c,
      ih _ { f with calls := f.calls ++ [c] } fs rfl]
    simp

/-- Delivering the event pair of an attempted call beyond the depth limit:
the Depth Guard marks the current top frame and swallows the pair. -/
theorem runEvents_emit_deep (D : Nat) (t : CallTree) (st : TracerState) (d : Nat)
    (hlen : st.stack.length = d) (hD : D < d)
    (hs : st.suppressed = 0) (hv : st.violation = none) :
    runEvents (callTracer D) st (emit D d t) = { st with stack := markDepthFail st.stack } := by
  cases t with
  | node e x subs =>
    have hnot : ¬ d ≤ D := by omega
    rw [emit, if_neg hnot, runEvents_cons, runEvents_cons, runEvents_nil]
    simp only [callTracer, Tracer.step, CallTracer.on_enter, CallTracer.on_exit, hv,
      Option.isSome_none, Bool.false_eq_true, if_false, FrameStack.enter, hlen,
      if_neg hnot]
    simp [hs]

theorem on_enter_push (D : Nat) (st : TracerState) (e : EnterData) (d : Nat)
    (hlen : st.stack.length = d) (hD : d ≤ D) (hv : st.violation = none) :
    (callTracer D).step st (.enter e) =
      { st with stack := { entry := e, calls := [], depthFail := false } :: st.stack } := by
  simp [callTracer, Tracer.step, CallTracer.on_enter, hv, FrameStack.enter, hlen, hD]

/-- Delivering the events of sibling calls all attempted beyond the depth
limit: either nothing happens (no siblings) or the top frame is marked. -/
theorem runEvents_emitList_deep (D : Nat) (ts : List CallTree) :
    ∀ (st : TracerState) (d : Nat), st.stack.length = d → D < d →
      st.suppressed = 0 → st.violation = none →
      runEvents (callTracer D) st (emitList D d ts) =
        if ts.isEmpty then st else { st with stack := markDepthFail st.stack } := by
  induction ts with
  | nil =>
    intro st d hlen hD hs hv
    simp [emitList, runEvents_nil]
  | cons t ts ih =>
    intro st d hlen hD hs hv
    rw [emitList, runEvents_append, runEvents_emit_deep D t st d hlen hD hs hv,
      ih { st with stack := markDepthFail st.stack } d
        (by simpa [markDepthFail_length] using hlen) hD hs hv]
    cases ts <;> simp [markDepthFail_idem]

mutual

/-- Delivering the hook events of one attempted call at an allowed depth
appends exactly its Call Record to the parent frame (or to the top level). -/
theorem runEvents_emit_ok (D : Nat) :
    ∀ (t : CallTree) (st : TracerState) (d : Nat),
      st.stack.length = d → d ≤ D → st.suppressed = 0 → st.violation = none →
      runEvents (callTracer D) st (emit D d t) = pushRecord st (recordOf D d t)
  | .node e x subs, st, d, hlen, hD, hs, hv => by
    rw [emit, if_pos hD, runEvents_cons, on_enter_push D st e d hlen hD hv,
      runEvents_append]
    by_cases hdD : d < D
    · rw [runEvents_emitList_ok D subs
        { st with stack := { entry := e, calls := [], depthFail := false } :: st.stack }
        (d + 1) { entry := e, calls := [], depthFail := false } st.stack rfl
        (by simp [hlen]) (by omega) hs hv]
      rw [runEvents_cons, runEvents_nil]
      simp only [callTracer, Tracer.step, CallTracer.on_exit, hv, Option.isSome_none,
        Bool.false_eq_true, if_false, hs, ne_eq, not_true_eq_false, ite_false,
        FrameStack.exit]
      rw [recordOf, if_pos hdD]
      simp [closeFrame, pushRecord, hs, hv]
    · have hdd : D < d + 1 := by omega
      rw [runEvents_emitList_deep D subs
        { st with stack := { entry := e, calls := [], depthFail := false } :: st.stack }
        (d + 1) (by simp [hlen]) hdd hs hv]
      rw [recordOf, if_neg hdD]
      cases subs with
      | nil =>
        simp only [List.isEmpty_nil, if_true, runEvents_cons, runEvents_nil]
        simp only [callTracer, Tracer.step, CallTracer.on_exit, hv, Option.isSome_none,
          Bool.false_eq_true, if_false, hs, ne_eq, not_true_eq_false, ite_false,
          FrameStack.exit]
        simp [closeFrame, pushRecord, hs, hv]
      | cons s ss =>
        simp only [List.isEmpty_cons, if_false, runEvents_cons, runEvents_nil,
          markDepthFail, Bool.false_eq_true]
        simp only [callTracer, Tracer.step, CallTracer.on_exit, hv, Option.isSome_none,
          Bool.false_eq_true, if_false, hs, ne_eq, not_true_eq_false, ite_false,
          FrameStack.exit]
        simp [closeFrame, pushRecord, hs, hv]

/-- Delivering the hook events of sibling attempted calls at an allowed
depth appends their Call Records, in call order, to the top frame. -/
theorem runEvents_emitList_ok (D : Nat) :
    ∀ (ts : List CallTree) (st : TracerState) (d : Nat) (f : Frame) (fs : List Frame),
      st.stack = f :: fs → st.stack.length = d → d ≤ D →
      st.suppressed = 0 → st.violation = none →
      runEvents (callTracer D) st (emitList D d ts) =
        { st with stack := { f with calls := f.calls ++ recordListOf D d ts } :: fs }
  | [], st, d, f, fs, hst, hlen, hD, hs, hv => by
    rw [emitList, runEvents_nil, recordListOf]
    rw [List.append_nil, ← hst]
  | t :: ts, st, d, f, fs, hst, hlen, hD, hs, hv => by
    rw [emitList, runEvents_append, runEvents_emit_ok D t st d hlen hD hs hv,
      pushRecord_stack_cons st f fs hst (recordOf D d t)]
    rw [runEvents_emitList_ok D ts
      { st with stack := { f with calls := f.calls ++ [recordOf D d t] } :: fs } d
      { f with calls := f.calls ++ [recordOf D d t] } fs rfl
      (by simp [← hlen, hst]) hD hs hv]
    simp [recordListOf, List.append_assoc]

end

/-- Delivering one transaction's events from a clean state publishes exactly
one more top-level record. -/
theorem runEvents_tx (D : Nat) (tx : Transaction) (st : TracerState)
    (hst : st.stack = []) (hs : st.suppressed = 0) (hv : st.violation = none) :
    runEvents (callTracer D) st (txEvents D tx) =
      { st with result := st.result ++ [recordOf D 0 tx.tree] } := by
  rw [txEvents, runEvents_emit_ok D tx.tree st 0 (by simp [hst]) (Nat.zero_le D) hs hv]
  simp [pushRecord, hst]

/-- Delivering a whole pass's events from a clean state publishes one
top-level record per transaction, in submission order. -/
theorem runEvents_pass (D : Nat) (txs : List Transaction) :
    ∀ (st : TracerState), st.stack = [] → st.suppressed = 0 → st.violation = none →
      runEvents (callTracer D) st (passEvents D txs) =
        { st with result := st.result ++ recordsOf D txs } := by
  induction txs with
  | nil =>
    intro st hst hs hv
    simp [passEvents, runEvents_nil, recordsOf]
  | cons tx txs ih =>
    intro st hst hs hv
    rw [passEvents, runEvents_append, runEvents_tx D tx st hst hs hv,
      ih { st with result := st.result ++ [recordOf D 0 tx.tree] } hst hs hv]
    simp [recordsOf, List.append_assoc]

/-- The inspection pass, in closed form: the Execution Driver's verdict
together with the filled Result Container. -/
theorem inspect_eq (D : Nat) (txs : List Transaction) :
    inspect D txs =
      ({ failed := txs.any (·.failed) }, ⟨some (recordsOf D txs)⟩) := by
  rw [inspect, CallTracer.new, inspectWith]
  rw [runEvents_pass D txs TracerState.init rfl rfl rfl]
  simp [finalize, TracerState.init, OnceCell.new, OnceCell.set]

theorem recordListOf_eq_map (D d : Nat) (ts : List CallTree) :
    recordListOf D d ts = ts.map (recordOf D d) := by
  induction ts with
  | nil => rfl
  | cons t ts ih => rw [recordListOf, ih, List.map_cons]

/-- Structural induction for attempted call trees. -/
theorem CallTree.inductionOn {P : CallTree → Prop}
    (h : ∀ e x subs, (∀ s ∈ subs, P s) → P (.node e x subs)) : ∀ t, P t
  | .node e x subs => h e x subs (fun s hs => CallTree.inductionOn h s)
termination_by t => sizeOf t
decreasing_by
  simp_wf
  have := List.sizeOf_lt_of_mem hs
  omega

/-- Depth invariant of published records: below an attempted call recorded
at depth `d ≤ D`, every reachable record sits at depth at most `D`, and a
record at the boundary depth `D` has no subcalls. -/
theorem recordOf_depth_invariant (D : Nat) (t : CallTree) :
    ∀ (d : Nat), d ≤ D →
      ∀ (k : Nat) (c : Call), OccursAt (recordOf D d t) k c →
        d + k ≤ D ∧ (d + k = D → c.calls = []) := by
  induction t using CallTree.inductionOn with
  | h e x subs ih =>
    intro d hd k c hocc
    by_cases hdD : d < D
    · rw [recordOf, if_pos hdD] at hocc
      cases hocc with
      | here =>
        refine ⟨by omega, ?_⟩
        intro hdk
        omega
      | child hmem hsub =>
        rw [Call.calls, recordListOf_eq_map, List.mem_map] at hmem
        obtain ⟨s, hsmem, rfl⟩ := hmem
        obtain ⟨h1, h2⟩ := ih s hsmem (d + 1) (by omega) _ c hsub
        exact ⟨by omega, fun hk => h2 (by omega)⟩
    · have hdd : d = D := by omega
      rw [recordOf, if_neg hdD] at hocc
      cases hocc with
      | here => exact ⟨by omega, fun _ => rfl⟩
      | child hmem hsub => simp [Call.calls] at hmem

/-- The tree-to-record correspondence: an attempted call occurring at depth
`b + k ≤ D` is published at the same depth, as its own `recordOf`. -/
theorem occursAt_of_tOccursAt (D : Nat) {t u : CallTree} {k : Nat}
    (h : TOccursAt t k u) :
    ∀ (b : Nat), b + k ≤ D → OccursAt (recordOf D b t) k (recordOf D (b + k) u) := by
  induction h with
  | here t =>
    intro b _
    exact OccursAt.here _
  | child hmem hsub ih =>
    intro b hbk
    rename_i t s u d
    have hbD : b < D := by omega
    have hrec := ih (b + 1) (by omega)
    have hmem2 : recordOf D (b + 1) s ∈ (recordOf D b t).calls := by
      cases t with
      | node e x subs =>
        rw [recordOf, if_pos hbD, Call.calls, recordListOf_eq_map]
        exact List.mem_map.mpr ⟨s, hmem, rfl⟩
    have harith : b + (d + 1) = b + 1 + d := by omega
    rw [harith]
    exact OccursAt.child hmem2 hrec

/-- A boundary record of an attempted call that tried to recurse further
carries the depth-exceeded error and has no subcalls. -/
theorem recordOf_boundary (D : Nat) (u : CallTree) (h : u.subs ≠ []) :
    (recordOf D D u).error = some .depthExceeded ∧ (recordOf D D u).calls = [] := by
  cases u with
  | node e x subs =>
    rw [recordOf, if_neg (lt_irrefl D)]
    cases subs with
    | nil => simp [CallTree.subs] at h
    | cons s ss => simp [Call.error, Call.calls]

/-- A deep chain truncated at the boundary: attempting more than `k`
further levels from depth `D - k` publishes exactly the truncated chain. -/
theorem recordOf_chainTree (D : Nat) (e : EnterData) (x : ExitData) :
    ∀ (k n d : Nat), d + k = D → k < n →
      recordOf D d (chainTree e x n) = truncChain e x k := by
  intro k
  induction k with
  | zero =>
    intro n d hdk hkn
    cases n with
    | zero => omega
    | succ m =>
      rw [chainTree, recordOf, if_neg (by omega), truncChain]
      simp
  | succ k ih =>
    intro n d hdk hkn
    cases n with
    | zero => omega
    | succ m =>
      rw [chainTree, recordOf, if_pos (by omega), recordListOf, recordListOf,
        ih m (d + 1) (by omega) (by omega), truncChain]

/-- Every record inside a truncated chain is the remaining chain at that
depth; nothing sits deeper than the boundary. -/
theorem truncChain_occursAt (e : EnterData) (x : ExitData) :
    ∀ (k j : Nat) (c : Call), OccursAt (truncChain e x k) j c →
      j ≤ k ∧ c = truncChain e x (k - j) := by
  intro k
  induction k with
  | zero =>
    intro j c hocc
    cases hocc with
    | here => exact ⟨Nat.zero_le _, rfl⟩
    | child hmem hsub => simp [truncChain, Call.calls] at hmem
  | succ k ih =>
    intro j c hocc
    cases hocc with
    | here => exact ⟨Nat.zero_le _, rfl⟩
    | child hmem hsub =>
      rw [truncChain, Call.calls, List.mem_singleton] at hmem
      subst hmem
      obtain ⟨h1, h2⟩ := ih _ c hsub
      rename_i d
      refine ⟨by omega, ?_⟩
      rw [h2]
      congr 1
      omega

/-- The truncated chain is present at every depth down to the boundary. -/
theorem truncChain_present (e : EnterData) (x : ExitData) :
    ∀ (k j : Nat), j ≤ k →
      OccursAt (truncChain e x k) j (truncChain e x (k - j)) := by
  intro k
  induction k with
  | zero =>
    intro j hj
    have hz : j = 0 := by omega
    subst hz
    exact OccursAt.here _
  | succ k ih =>
    intro j hj
    cases j with
    | zero => exact OccursAt.here _
    | succ j =>
      have hmem : truncChain e x k ∈ (truncChain e x (k + 1)).calls := by
        rw [truncChain, Call.calls, List.mem_singleton]
      have hsub := ih j (by omega)
      have harith : k + 1 - (j + 1) = k - j := by omega
      rw [harith]
      exact OccursAt.child hmem hsub

/-- Claim C1: for every inspection pass, the Result Container publishes one
top-level Call Record per submitted transaction, in submission order (the
i-th record is the record of the i-th transaction's call tree); a pass over
exactly one transaction yields a top-level list of length exactly one. -/
theorem C1_topLevel_records_match_transactions (D : Nat) (txs : List Transaction) :
    (inspect D txs).2.get = some (recordsOf D txs) ∧
    (recordsOf D txs).length = txs.length ∧
    (∀ i : Nat, (recordsOf D txs)[i]? =
      (txs[i]?).map (fun tx => recordOf D 0 tx.tree)) ∧
    (txs.length = 1 → (recordsOf D txs).length = 1) := by
  refine ⟨?_, ?_, ?_, ?_⟩
  · rw [inspect_eq]
    rfl
  · simp [recordsOf]
  · intro i
    simp [recordsOf]
  · intro h
    simp [recordsOf, h]

/-- Witness for claim C1 at a concrete one-transaction pass. -/
theorem C1_topLevel_records_match_transactions_witness :
    (inspect 4 [sampleTx]).2.get = some (recordsOf 4 [sampleTx]) ∧
    (recordsOf 4 [sampleTx]).length = [sampleTx].length ∧
    (∀ i : Nat, (recordsOf 4 [sampleTx])[i]? =
      ([sampleTx][i]?).map (fun tx => recordOf 4 0 tx.tree)) ∧
    ([sampleTx].length = 1 → (recordsOf 4 [sampleTx]).length = 1) :=
  C1_topLevel_records_match_transactions 4 [sampleTx]

/-- Claim C2: a transaction recursing beyond the maximum depth leaves the
Result Container populated — the top-level Call Record is the chain
truncated at the depth limit, present and well-formed at every depth down
to the boundary, where the record carries the depth-exceeded error and no
subcalls — while the Execution Driver's verdict reports overall failure. -/
theorem C2_deep_recursion_populates_container (D n : Nat) (e : EnterData)
    (x : ExitData) (hn : D < n) :
    (inspect D [deepRecursionTx e x n]).1.is_failed = true ∧
    (inspect D [deepRecursionTx e x n]).2.get = some [truncChain e x D] ∧
    (∀ j : Nat, j ≤ D → ∃ c, OccursAt (truncChain e x D) j c) ∧
    (∀ (j : Nat) (c : Call), OccursAt (truncChain e x D) j c → j ≤ D) ∧
    (∀ c : Call, OccursAt (truncChain e x D) D c →
      c.error = some .depthExceeded ∧ c.calls = []) := by
  have hrec : recordOf D 0 (chainTree e x n) = truncChain e x D :=
    recordOf_chainTree D e x D n 0 (by omega) hn
  refine ⟨?_, ?_, ?_, ?_, ?_⟩
  · rw [inspect_eq]
    rfl
  · rw [inspect_eq]
    simp only [OnceCell.get, recordsOf, deepRecursionTx, List.map_cons, List.map_nil]
    rw [hrec]
  · intro j hj
    exact ⟨truncChain e x (D - j), truncChain_present e x D j hj⟩
  · intro j c hocc
    exact (truncChain_occursAt e x D j c hocc).1
  · intro c hocc
    have h2 := (truncChain_occursAt e x D D c hocc).2
    rw [h2, Nat.sub_self]
    exact ⟨rfl, rfl⟩

/-- Witness for claim C2 at depth limit 1 and attempted recursion depth 3. -/
theorem C2_deep_recursion_populates_container_witness :
    1 < 3 ∧
    ((inspect 1 [deepRecursionTx sampleEnter sampleLeave 3]).1.is_failed = true ∧
     (inspect 1 [deepRecursionTx sampleEnter sampleLeave 3]).2.get =
       some [truncChain sampleEnter sampleLeave 1] ∧
     (∀ j : Nat, j ≤ 1 → ∃ c, OccursAt (truncChain sampleEnter sampleLeave 1) j c) ∧
     (∀ (j : Nat) (c : Call),
       OccursAt (truncChain sampleEnter sampleLeave 1) j c → j ≤ 1) ∧
     (∀ c : Call, OccursAt (truncChain sampleEnter sampleLeave 1) 1 c →
       c.error = some .depthExceeded ∧ c.calls = [])) :=
  ⟨by decide,
   C2_deep_recursion_populates_container 1 3 sampleEnter sampleLeave (by decide)⟩

/-- Claim C3: the Execution Driver's verdict for a pass is identical under
any attached observer (including none) and never depends on what the
observer records: tracing cannot suppress or alter the verdict. -/
theorem C3_verdict_independent_of_tracer (σ : Type) (tr : Tracer σ) (s : σ)
    (D : Nat) (txs : List Transaction) :
    (inspectWith tr s D txs).1 = (inspectWith nilTracer () D txs).1 ∧
    (inspect D txs).1 = (inspectWith nilTracer () D txs).1 ∧
    (inspectWith tr s D txs).1.is_failed = txs.any (·.failed) :=
  ⟨rfl, rfl, rfl⟩

/-- Claim C4: the Result Container permits exactly one successful write per
pass — after a successful first write, a second attempt reports failure and
leaves the stored value unchanged. -/
theorem C4_result_container_write_once (α : Type) (c : OnceCell α) (v w : α)
    (h : (c.set v).2 = true) :
    ((c.set v).1.set w).2 = false ∧
    ((c.set v).1.set w).1 = (c.set v).1 ∧
    ((c.set v).1.set w).1.get = some v ∧
    (c.set v).1.get = some v := by
  cases hval : c.value with
  | some u => simp [OnceCell.set, hval] at h
  | none => simp [OnceCell.set, hval, OnceCell.get]

/-- Witness for claim C4 on a fresh container. -/
theorem C4_result_container_write_once_witness :
    ((OnceCell.new.set (1 : Nat)).2 = true) ∧
    (((OnceCell.new.set (1 : Nat)).1.set 2).2 = false ∧
     ((OnceCell.new.set (1 : Nat)).1.set 2).1 = (OnceCell.new.set (1 : Nat)).1 ∧
     ((OnceCell.new.set (1 : Nat)).1.set 2).1.get = some 1 ∧
     (OnceCell.new.set (1 : Nat)).1.get = some 1) :=
  ⟨rfl, C4_result_container_write_once Nat OnceCell.new 1 2 rfl⟩

/-- Claim C5: a read of the Result Container before the pass completes
returns the distinguished absent value; after the pass's single write every
read returns the same finalized list, and no later write attempt changes
what readers observe. -/
theorem C5_reads_absent_then_finalized (α : Type) (D : Nat)
    (txs : List Transaction) (c : OnceCell α) (v w : α) (h : c.get = some v) :
    CallTracer.new.2.get = (none : Option (List Call)) ∧
    (inspect D txs).2.get = some (recordsOf D txs) ∧
    ((c.set w).1).get = some v := by
  refine ⟨rfl, ?_, ?_⟩
  · rw [inspect_eq]
    rfl
  · rw [OnceCell.get] at h
    simp [OnceCell.set, h, OnceCell.get]

/-- Witness for claim C5 on a concrete pass and a written container. -/
theorem C5_reads_absent_then_finalized_witness :
    (OnceCell.mk (some 5) : OnceCell Nat).get = some 5 ∧
    (CallTracer.new.2.get = (none : Option (List Call)) ∧
     (inspect 2 [sampleTx]).2.get = some (recordsOf 2 [sampleTx]) ∧
     ((OnceCell.mk (some 5) : OnceCell Nat).set 9).1.get = some 5) :=
  ⟨rfl, C5_reads_absent_then_finalized Nat 2 [sampleTx] (OnceCell.mk (some 5)) 5 9 rfl⟩

/-- Claim C6: the counter-increment transaction produces exactly one
top-level Call Record, its `calls` sequence has strictly more than ten
entries, and the Execution Driver's verdict is non-failed. -/
theorem C6_counter_transaction_scenario (D : Nat) (e sub : EnterData)
    (x : ExitData) (hD : 0 < D) :
    (inspect D [counterTx e sub x]).1.is_failed = false ∧
    (∃ r, (inspect D [counterTx e sub x]).2.get = some [r] ∧
      10 < r.calls.length) := by
  refine ⟨?_, ⟨recordOf D 0 (counterTx e sub x).tree, ?_, ?_⟩⟩
  · rw [inspect_eq]
    rfl
  · rw [inspect_eq]
    rfl
  · rw [counterTx, recordOf, if_pos hD, Call.calls, recordListOf_eq_map]
    simp

/-- Witness for claim C6 at depth limit 1024. -/
theorem C6_counter_transaction_scenario_witness :
    0 < 1024 ∧
    ((inspect 1024 [counterTx sampleEnter sampleEnter sampleLeave]).1.is_failed = false ∧
     (∃ r, (inspect 1024 [counterTx sampleEnter sampleEnter sampleLeave]).2.get = some [r] ∧
       10 < r.calls.length)) :=
  ⟨by decide,
   C6_counter_transaction_scenario 1024 sampleEnter sampleEnter sampleLeave (by decide)⟩

/-- Claim C7: in every published trace, no reachable Call Record sits deeper
than the configured maximum depth, a record at the boundary depth has an
empty `calls` sequence, and an attempted call at the boundary that tried to
recurse further is published at that depth carrying the depth-exceeded
error with no subcalls. -/
theorem C7_depth_never_exceeds_limit (D : Nat) (txs : List Transaction)
    (records : List Call) (hpub : (inspect D txs).2.get = some records) :
    (∀ r ∈ records, ∀ (k : Nat) (c : Call), OccursAt r k c →
      k ≤ D ∧ (k = D → c.calls = [])) ∧
    (∀ tx ∈ txs, ∀ u : CallTree, TOccursAt tx.tree D u → u.subs ≠ [] →
      OccursAt (recordOf D 0 tx.tree) D (recordOf D D u) ∧
      (recordOf D D u).error = some .depthExceeded ∧
      (recordOf D D u).calls = []) := by
  have hred : records = recordsOf D txs := by
    rw [inspect_eq] at hpub
    exact (Option.some.inj hpub).symm
  constructor
  · intro r hr k c hocc
    rw [hred, recordsOf, List.mem_map] at hr
    obtain ⟨tx, htx, rfl⟩ := hr
    have hinv := recordOf_depth_invariant D tx.tree 0 (Nat.zero_le D) k c hocc
    simpa using hinv
  · intro tx htx u hu hsubs
    refine ⟨?_, (recordOf_boundary D u hsubs).1, (recordOf_boundary D u hsubs).2⟩
    have hcorr := occursAt_of_tOccursAt D hu 0 (by omega)
    simpa using hcorr

/-- Witness for claim C7 on a concrete over-deep pass. -/
theorem C7_depth_never_exceeds_limit_witness :
    (inspect 1 [deepRecursionTx sampleEnter sampleLeave 3]).2.get =
      some (recordsOf 1 [deepRecursionTx sampleEnter sampleLeave 3]) ∧
    ((∀ r ∈ recordsOf 1 [deepRecursionTx sampleEnter sampleLeave 3],
       ∀ (k : Nat) (c : Call), OccursAt r k c → k ≤ 1 ∧ (k = 1 → c.calls = [])) ∧
     (∀ tx ∈ [deepRecursionTx sampleEnter sampleLeave 3], ∀ u : CallTree,
       TOccursAt tx.tree 1 u → u.subs ≠ [] →
       OccursAt (recordOf 1 0 tx.tree) 1 (recordOf 1 1 u) ∧
       (recordOf 1 1 u).error = some .depthExceeded ∧
       (recordOf 1 1 u).calls = [])) :=
  ⟨rfl, C7_depth_never_exceeds_limit 1 [deepRecursionTx sampleEnter sampleLeave 3]
    (recordsOf 1 [deepRecursionTx sampleEnter sampleLeave 3]) rfl⟩

/-- Claim C8: calling the Frame Stack's exit operation on an empty stack is
rejected with a loud contract-violation failure: the primitive returns the
violation, the tracer records it rather than ignoring it, and no top-level
record is produced. -/
theorem C8_exit_on_empty_stack_rejected (st : TracerState) (x : ExitData)
    (hst : st.stack = []) (hs : st.suppressed = 0) (hv : st.violation = none) :
    FrameStack.exit st x = .error .exitOnEmptyStack ∧
    (CallTracer.on_exit st x).violation = some .exitOnEmptyStack ∧
    (CallTracer.on_exit st x).result = st.result := by
  have hexit : FrameStack.exit st x = .error .exitOnEmptyStack := by
    rw [FrameStack.exit, hst]
  refine ⟨hexit, ?_, ?_⟩ <;>
    simp [CallTracer.on_exit, hv, hs, hexit]

/-- Witness for claim C8 on the freshly constructed tracer state. -/
theorem C8_exit_on_empty_stack_rejected_witness :
    TracerState.init.stack = [] ∧ TracerState.init.suppressed = 0 ∧
    TracerState.init.violation = none ∧
    (FrameStack.exit TracerState.init sampleLeave = .error .exitOnEmptyStack ∧
     (CallTracer.on_exit TracerState.init sampleLeave).violation =
       some .exitOnEmptyStack ∧
     (CallTracer.on_exit TracerState.init sampleLeave).result =
       TracerState.init.result) :=
  ⟨rfl, rfl, rfl, C8_exit_on_empty_stack_rejected TracerState.init sampleLeave rfl rfl rfl⟩

end VmTrace

namespace ZkStackCli

/-- Claim C9: `main` logs the error and exits with status 1 when the
selected subcommand returns an error, and returns `Ok(())` (exit status 0)
when the subcommand succeeds. -/
theorem C9_main_exit_code_contract (e : CliError) :
    mainOutcome (.error e) = { logged := some e, exit_code := 1 } ∧
    mainOutcome (.ok ()) = { logged := none, exit_code := 0 } :=
  ⟨rfl, rfl⟩

/-- Claim C10: with a `--chain` argument, the chain name is validated only
when the ecosystem config loads: a loaded config without the name fails
initialization before any subcommand runs; an unloadable config skips the
check and stores the name unchecked; a loaded config containing the name
stores it as well. -/
theorem C10_chain_validated_only_when_config_loads
    (ecosystem : Except CliError EcosystemConfig) (args : ZkStackGlobalArgs)
    (name : String) (dispatch : Except CliError Unit)
    (hchain : args.chain = some name) :
    (∀ config, ecosystem = .ok config → name ∉ config.list_of_chains →
      (∃ msg, init_global_config_inner ecosystem args = .error msg) ∧
      (run_subcommand ecosystem args dispatch).subcommand_ran = false) ∧
    (∀ err, ecosystem = .error err →
      init_global_config_inner ecosystem args =
        .ok { verbose := args.verbose, chain_name := some name,
              ignore_prerequisites := args.ignore_prerequisites } ∧
      (run_subcommand ecosystem args dispatch).subcommand_ran = true) ∧
    (∀ config, ecosystem = .ok config → name ∈ config.list_of_chains →
      init_global_config_inner ecosystem args =
        .ok { verbose := args.verbose, chain_name := some name,
              ignore_prerequisites := args.ignore_prerequisites }) := by
  obtain ⟨verb, chainArg, ignore⟩ := args
  have hch : chainArg = some name := hchain
  subst hch
  refine ⟨?_, ?_, ?_⟩
  · intro config hcfg hmem
    subst hcfg
    constructor
    · refine ⟨"Chain with name " ++ name ++ " doesnt exist, please choose one of the configured chains", ?_⟩
      simp [init_global_config_inner, hmem]
    · simp [run_subcommand, init_global_config_inner, hmem]
  · intro err herr
    subst herr
    constructor
    · simp [init_global_config_inner]
    · simp [run_subcommand, init_global_config_inner]
  · intro config hcfg hmem
    subst hcfg
    simp [init_global_config_inner, hmem]

/-- Witness for claim C10 on a concrete configuration with one chain. -/
theorem C10_chain_validated_only_when_config_loads_witness :
    ({ verbose := false, chain := some "zk",
       ignore_prerequisites := false } : ZkStackGlobalArgs).chain = some "zk" ∧
    ((∀ config, (Except.ok ⟨["era"]⟩ : Except CliError EcosystemConfig) = .ok config →
       "zk" ∉ config.list_of_chains →
       (∃ msg, init_global_config_inner (.ok ⟨["era"]⟩)
         { verbose := false, chain := some "zk", ignore_prerequisites := false } = .error msg) ∧
       (run_subcommand (.ok ⟨["era"]⟩)
         { verbose := false, chain := some "zk", ignore_prerequisites := false }
         (.ok ())).subcommand_ran = false) ∧
     (∀ err, (Except.ok ⟨["era"]⟩ : Except CliError EcosystemConfig) = .error err →
       init_global_config_inner (.ok ⟨["era"]⟩)
         { verbose := false, chain := some "zk", ignore_prerequisites := false } =
         .ok { verbose := false, chain_name := some "zk", ignore_prerequisites := false } ∧
       (run_subcommand (.ok ⟨["era"]⟩)
         { verbose := false, chain := some "zk", ignore_prerequisites := false }
         (.ok ())).subcommand_ran = true) ∧
     (∀ config, (Except.ok ⟨["era"]⟩ : Except CliError EcosystemConfig) = .ok config →
       "zk" ∈ config.list_of_chains →
       init_global_config_inner (.ok ⟨["era"]⟩)
         { verbose := false, chain := some "zk", ignore_prerequisites := false } =
         .ok { verbose := false, chain_name := some "zk", ignore_prerequisites := false })) :=
  ⟨rfl, C10_chain_validated_only_when_config_loads (.ok ⟨["era"]⟩)
    { verbose := false, chain := some "zk", ignore_prerequisites := false }
    "zk" (.ok ()) rfl⟩

end ZkStackCli
